import Mathlib

/-!
# Verification of the SRT batch-translation pipeline (`src/SRCaddChinese.py`)

This file gives a shallow embedding, in Lean 4, of the pipeline implemented in
`SRCaddChinese.py`: extraction of translatable text from SRT subtitle lines,
the retrying single-text translation, the batch worker with its progress,
error and proxy-environment behaviour, the bilingual merge, and the
"Chinese-only" filter.  The program splits the file content on the newline
character once, at entry, and every pipeline operation then works on the
resulting list of lines; documents are accordingly modelled at the line level
as `List String`.

The claims about the (unimplemented) `SrtFile` parser/serializer are settled
against definitions modelled from the specification text, and are marked as
such in their doc comments.
-/

namespace SrtTool

/-! ## Python string primitives -/

/-- The characters Python's `str.strip()` removes (ASCII whitespace; the
Unicode-only whitespace characters do not occur in this development). -/
def isPySpace (c : Char) : Bool :=
  c == ' ' || c == '\t' || c == '\n' || c == '\r' || c == '\x0b' || c == '\x0c'

/-- Strip leading and trailing whitespace from a character list. -/
def stripChars (cs : List Char) : List Char :=
  ((cs.dropWhile isPySpace).reverse.dropWhile isPySpace).reverse

/-- Python `s.strip()`. -/
def pyStrip (s : String) : String := ⟨stripChars s.data⟩

/-- Python `s.isdigit()`: nonempty and all characters are digits. -/
def pyIsDigit (s : String) : Bool :=
  !s.data.isEmpty && s.data.all (·.isDigit)

/-- `line.strip().isdigit()` — the program's test for a caption-index line. -/
def isDigitLine (s : String) : Bool := pyIsDigit (pyStrip s)

/-- Python truthiness of `s.strip()`: the line has non-whitespace content. -/
def pyTruthy (s : String) : Bool := !(pyStrip s).data.isEmpty

/-! ## Decimal printing and reading of natural numbers

`str(n)` and `int(s)` for the caption indices, implemented structurally so
that the kernel can evaluate them on concrete inputs. -/

/-- The decimal digit character for `d < 10`. -/
def digitChar (d : Nat) : Char :=
  match d with
  | 0 => '0' | 1 => '1' | 2 => '2' | 3 => '3' | 4 => '4'
  | 5 => '5' | 6 => '6' | 7 => '7' | 8 => '8' | 9 => '9'
  | _ => '*'

/-- Numeric value of a digit character. -/
def digitVal (c : Char) : Nat := c.toNat - 48

/-- Fuel-driven decimal printer (most significant digit first); any
`fuel > n` yields the digits of `n`. -/
def natCharsGo : Nat → Nat → List Char
  | 0, _ => []
  | fuel + 1, n =>
    if n < 10 then [digitChar n]
    else natCharsGo fuel (n / 10) ++ [digitChar (n % 10)]

/-- Python `str(n)` for a natural number. -/
def natToString (n : Nat) : String := ⟨natCharsGo (n + 1) n⟩

/-- Value of a digit string (most significant digit first). -/
def digitsVal (cs : List Char) : Nat :=
  cs.foldl (fun a c => a * 10 + digitVal c) 0

/-- Python `int(s)` on a digit-only string. -/
def pyToNat (s : String) : Nat := digitsVal s.data

/-! ## Basic lemmas about the string primitives -/

theorem dropWhile_all_false {p : Char → Bool} : ∀ {l : List Char},
    (∀ c ∈ l, p c = false) → l.dropWhile p = l := by
  intro l h
  cases l with
  | nil => rfl
  | cons c cs => simp [List.dropWhile, h c (List.mem_cons_self c cs)]

theorem stripChars_of_clean {cs : List Char}
    (h : ∀ c ∈ cs, isPySpace c = false) : stripChars cs = cs := by
  unfold stripChars
  rw [dropWhile_all_false h, dropWhile_all_false, List.reverse_reverse]
  intro c hc
  exact h c (List.mem_reverse.mp hc)

theorem digitChar_isDigit {d : Nat} (h : d < 10) : (digitChar d).isDigit = true := by
  interval_cases d <;> decide

theorem digitChar_not_space {d : Nat} (h : d < 10) : isPySpace (digitChar d) = false := by
  interval_cases d <;> decide

theorem digitVal_digitChar {d : Nat} (h : d < 10) : digitVal (digitChar d) = d := by
  interval_cases d <;> decide

theorem natCharsGo_ne_nil {fuel n : Nat} (h : n < fuel) : natCharsGo fuel n ≠ [] := by
  cases fuel with
  | zero => omega
  | succ f =>
    unfold natCharsGo
    split <;> simp

theorem natCharsGo_digits : ∀ fuel n, n < fuel →
    ∀ c ∈ natCharsGo fuel n, c.isDigit = true ∧ isPySpace c = false := by
  intro fuel
  induction fuel with
  | zero => omega
  | succ f ih =>
    intro n hn c hc
    unfold natCharsGo at hc
    by_cases h10 : n < 10
    · simp [h10] at hc
      subst hc
      exact ⟨digitChar_isDigit h10, digitChar_not_space h10⟩
    · simp [h10] at hc
      rcases hc with hc | hc
      · have hdiv : n / 10 < f := by
          have := Nat.div_lt_self (by omega : 0 < n) (by omega : 1 < 10)
          omega
        exact ih (n / 10) hdiv c hc
      · subst hc
        have : n % 10 < 10 := Nat.mod_lt _ (by omega)
        exact ⟨digitChar_isDigit this, digitChar_not_space this⟩

theorem digitsVal_append_singleton (cs : List Char) (c : Char) :
    digitsVal (cs ++ [c]) = digitsVal cs * 10 + digitVal c := by
  simp [digitsVal, List.foldl_append]

theorem digitsVal_natCharsGo : ∀ fuel n, n < fuel →
    digitsVal (natCharsGo fuel n) = n := by
  intro fuel
  induction fuel with
  | zero => omega
  | succ f ih =>
    intro n hn
    unfold natCharsGo
    by_cases h10 : n < 10
    · simp [h10, digitsVal, digitVal_digitChar h10]
    · have hdiv : n / 10 < f := by
        have := Nat.div_lt_self (by omega : 0 < n) (by omega : 1 < 10)
        omega
      simp only [h10, if_false]
      rw [digitsVal_append_singleton, ih (n / 10) hdiv,
        digitVal_digitChar (Nat.mod_lt _ (by omega))]
      omega

theorem pyStrip_natToString (n : Nat) : pyStrip (natToString n) = natToString n := by
  have hclean : ∀ c ∈ natCharsGo (n + 1) n, isPySpace c = false :=
    fun c hc => (natCharsGo_digits (n + 1) n (Nat.lt_succ_self n) c hc).2
  show (⟨stripChars (natCharsGo (n + 1) n)⟩ : String) = _
  rw [stripChars_of_clean hclean]
  rfl

theorem isDigitLine_natToString (n : Nat) : isDigitLine (natToString n) = true := by
  rw [isDigitLine, pyStrip_natToString]
  show (!((natCharsGo (n + 1) n).isEmpty) && (natCharsGo (n + 1) n).all (·.isDigit)) = true
  have h1 := natCharsGo_ne_nil (Nat.lt_succ_self n)
  rw [Bool.and_eq_true, List.all_eq_true]
  constructor
  · simpa [List.isEmpty_iff] using h1
  · intro c hc
    exact (natCharsGo_digits (n + 1) n (Nat.lt_succ_self n) c hc).1

theorem pyToNat_natToString (n : Nat) : pyToNat (natToString n) = n :=
  digitsVal_natCharsGo (n + 1) n (Nat.lt_succ_self n)

theorem isDigitLine_empty : isDigitLine "" = false := by decide

/-! ## The document model

A caption block of an SRT file: the numeric index line, the raw time-range
line (treated as an opaque string) and one or more text lines
(`spec.md` §3).  `serializeLines` lays a block list out on lines exactly in
the standard SRT shape (index line, time-range line, text lines, blank
separator); the pipeline operations below all consume such line lists, since
the program splits the file content on the newline character once. -/

structure CaptionBlock where
  index : Nat
  timeRange : String
  text : List String
deriving Repr, DecidableEq

/-- Lay caption blocks out as SRT lines: index, time range, text lines,
blank separator line. -/
def serializeLines (bs : List CaptionBlock) : List String :=
  bs.flatMap (fun b => natToString b.index :: b.timeRange :: (b.text ++ [""]))

/-- A well-formed caption block for this pipeline: it has at least one text
line, and no text line after the first reads as a digit-only line (a
digit-only later text line would be mistaken for the next caption index by
the fixed-offset line walks). -/
def wfBlock (b : CaptionBlock) : Prop :=
  b.text ≠ [] ∧ ∀ l ∈ b.text.tail, isDigitLine l = false

instance (b : CaptionBlock) : Decidable (wfBlock b) := by
  unfold wfBlock; infer_instance

/-! ## `SubtitleEditor.process_subtitle_lines(lines, 'translate')`
(`src/SRCaddChinese.py` lines 292–314)

The walk keeps an index `i` that only moves forward (`i += 2` after a
caption-index line, plus the loop's `i += 1`), and every access is at or
ahead of `i`; it is therefore embedded structurally on the suffix of the
line list.  On a digit-only line the code skips the time-range line and
appends `lines[i].strip()` — the stripped first text line — when it exists,
then resumes three positions further on. -/

def extractGo : List String → List String
  | [] => []
  | cur :: rest =>
    if isDigitLine cur then
      match rest with
      | [] => []
      | _tc :: rest2 =>
        match rest2 with
        | [] => []
        | txt :: rest3 => pyStrip txt :: extractGo rest3
    else extractGo rest

/-- `process_subtitle_lines(lines, 'translate')`: the ordered list of texts
to translate, one per recognized caption-index line. -/
def process_subtitle_lines_translate (lines : List String) : List String :=
  extractGo lines

/-! ## `SubtitleEditor.process_subtitle_lines(lines, 'chinese_only')`
(`src/SRCaddChinese.py` lines 292–314)

On a digit-only line the code appends a fresh sequential number
(`str(subtitle_count)`), the following time-range line, skips one line (the
English text), and appends the line two further on — the Chinese line —
provided it exists and is not digit-only, incrementing the counter only in
that case; it then resumes four positions past the index line.  No blank
separator lines are ever emitted. -/

def chineseGo : List String → Nat → List String
  | [], _ => []
  | cur :: rest, cnt =>
    if isDigitLine cur then
      match rest with
      | [] => [natToString cnt]
      | tc :: rest2 =>
        match rest2 with
        | [] => [natToString cnt, tc]
        | _en :: rest3 =>
          match rest3 with
          | [] => [natToString cnt, tc]
          | ch :: rest4 =>
            if isDigitLine ch then
              natToString cnt :: tc :: chineseGo rest4 cnt
            else
              natToString cnt :: tc :: ch :: chineseGo rest4 (cnt + 1)
    else chineseGo rest cnt

/-- `process_subtitle_lines(lines, 'chinese_only')`, with `subtitle_count`
starting at 1. -/
def process_subtitle_lines_chinese_only (lines : List String) : List String :=
  chineseGo lines 1

/-! ## The merge walk of `SubtitleEditor.onTranslationFinished`
(`src/SRCaddChinese.py` lines 374–394)

Every line the walk lands on is copied; on a digit-only (stripped) line the
code does `i += 2` and then accesses `lines[i-1]` — the time-range line —
*without* a bounds check (an `IndexError` when the digit line is the last
line, modelled as `none`); it then appends `lines[i]` (the first text line)
if in range, followed by the next pending translation if one remains
(`trans_index < len(translated_texts)`, modelled by consuming the
translation list from the front), and resumes three positions further on.
The translation is appended unconditionally — also when it is the empty
string. -/

def mergeGo : List String → List String → Option (List String)
  | [], _ => some []
  | cur :: rest, transl =>
    if isDigitLine cur then
      match rest with
      | [] => none
      | tc :: rest2 =>
        match rest2 with
        | [] => some [cur, tc]
        | en :: rest3 =>
          match transl with
          | t :: ts => (fun r => cur :: tc :: en :: t :: r) <$> mergeGo rest3 ts
          | [] => (fun r => cur :: tc :: en :: r) <$> mergeGo rest3 []
    else
      (cur :: ·) <$> mergeGo rest transl

/-- The line-merge of `onTranslationFinished`: original lines plus the
translated texts, `none` on the unchecked `lines[i-1]` access failing. -/
def onTranslationFinished_merge (lines transl : List String) : Option (List String) :=
  mergeGo lines transl

/-- The merged segment a well-formed block `b` with translation `t`
contributes: index line, time range, first text line, the translation,
the remaining text lines and the blank separator. -/
def mergedSeg (b : CaptionBlock) (t : String) : List String :=
  natToString b.index :: b.timeRange :: b.text.headI :: t :: (b.text.tail ++ [""])

/-! ## The background worker `TranslatorThread`
(`src/SRCaddChinese.py` lines 52–143)

The worker's observable behaviour is modelled as a trace of events: setting
and clearing of the process-wide proxy environment variables
(`http_proxy`/`https_proxy`), calls to the external translation provider,
sleeps (in tenths of the time unit: `time.sleep(1)` is `sleep 10`,
`time.sleep(0.5)` is `sleep 5`), and the emissions of the
`translation_started`, `progress`, `finished` and `error` signals.

The external provider is modelled by a response oracle: for each text, the
`k`-th attempt either returns a translation (`some`) or raises (`none`). -/

inductive Ev where
  | setProxy
  | clearProxy
  | callProvider (text : String)
  | sleep (tenths : Nat)
  | emitStarted
  | emitProgress (p : Nat)
  | emitFinished (res : List String)
  | emitError (msg : String)
deriving Repr, DecidableEq

/-- Outcome of `translate_text`: a translation, or the exception
`翻译失败: 翻译重试次数超过限制` (the `TranslationError` of the spec). -/
inductive TransOutcome where
  | ok (s : String)
  | err
deriving Repr, DecidableEq

/-- The text carried by a successful outcome (`""` for the error case). -/
def okText : TransOutcome → String
  | .ok s => s
  | .err => ""

/-- The retry loop of `TranslatorThread.translate_text`
(`src/SRCaddChinese.py` lines 130–143): attempt `k`, with `n` attempts
remaining.  Each attempt is one provider call; on failure the code sleeps
one time unit and retries; exhausting the attempts raises. -/
def translateAttempts (resp : Nat → Option String) (text : String) :
    Nat → Nat → TransOutcome × List Ev
  | _, 0 => (.err, [])
  | k, n + 1 =>
    match resp k with
    | some r => (.ok r, [Ev.callProvider text])
    | none =>
      let rec' := translateAttempts resp text (k + 1) n
      (rec'.1, Ev.callProvider text :: Ev.sleep 10 :: rec'.2)

/-- `TranslatorThread.translate_text`: up to 3 provider calls. -/
def translate_text (resp : Nat → Option String) (text : String) :
    TransOutcome × List Ev :=
  translateAttempts resp text 0 3

/-- The progress value `int((i + 1) / total * 100)` computed by
`TranslatorThread.run` (`src/SRCaddChinese.py` line 113): `i` is the 0-based
item position.  Python computes the quotient in binary floating point and
`int` truncates toward zero; this is modelled by exact natural truncated
division `(i + 1) * 100 / total`, which agrees with the float computation on
the concrete inputs used here. -/
def progressValue (i total : Nat) : Nat := ((i + 1) * 100) / total

/-- The per-item loop of `TranslatorThread.run`
(`src/SRCaddChinese.py` lines 105–117): for each text in order, a non-blank
text (`if text.strip():`) is translated and the result appended, a blank
text contributes `""` with no provider call; after every item the progress
signal is emitted and the worker sleeps 0.5 time units.  A
`translate_text` failure raises out of the loop (`none`, no result list). -/
def runLoop (resp : String → Nat → Option String) (total : Nat) :
    List String → Nat → Option (List String) × List Ev
  | [], _ => (some [], [])
  | t :: ts, i =>
    if pyTruthy t then
      match translate_text (resp t) t with
      | (.ok r, evs) =>
        let rest := runLoop resp total ts (i + 1)
        (rest.1.map (r :: ·),
          evs ++ Ev.emitProgress (progressValue i total) :: Ev.sleep 5 :: rest.2)
      | (.err, evs) => (none, evs)
    else
      let rest := runLoop resp total ts (i + 1)
      (rest.1.map ("" :: ·),
        Ev.emitProgress (progressValue i total) :: Ev.sleep 5 :: rest.2)

/-- Outcome of the reachability probe `TranslatorThread.test_proxy`
(`src/SRCaddChinese.py` lines 74–90): the `GET http://translate.google.com`
request either returns status 200 (`ok`), returns another status — the
method returns `False` (`notOk`) — or raises, which `test_proxy` re-raises
as `代理连接测试失败: …` (`raises`). -/
inductive ProbeResult where
  | ok
  | notOk
  | raises (msg : String)
deriving Repr, DecidableEq

/-- The error message of a failed `translate_text`
(`src/SRCaddChinese.py` lines 141–143). -/
def translationErrorMsg : String := "翻译失败: 翻译重试次数超过限制"

/-- `TranslatorThread.run` (`src/SRCaddChinese.py` lines 92–128) as an event
trace.  `test_proxy` first sets the proxy environment variables; if it
returns `False` the method just returns (no signal at all); if it raises,
the `except` branch emits the error signal; otherwise `translation_started`
is emitted, the items are processed, and `finished` is emitted with the full
result list (or `error` if an item fails all retries).  The `finally` block
clears the proxy environment variables on every *completed* path. -/
def runThread (probe : ProbeResult) (resp : String → Nat → Option String)
    (texts : List String) : List Ev :=
  Ev.setProxy ::
    ((match probe with
      | .raises msg => [Ev.emitError ("代理连接测试失败: " ++ msg)]
      | .notOk => []
      | .ok =>
        Ev.emitStarted ::
          (match runLoop resp texts.length texts 0 with
           | (some res, evs) => evs ++ [Ev.emitFinished res]
           | (none, evs) => evs ++ [Ev.emitError translationErrorMsg])) ++
      [Ev.clearProxy])

/-! ## Trace observations -/

/-- Number of provider calls in a trace. -/
def callCount (evs : List Ev) : Nat :=
  evs.countP (fun e => match e with | .callProvider _ => true | _ => false)

/-- Number of error-signal emissions in a trace. -/
def errCount (evs : List Ev) : Nat :=
  evs.countP (fun e => match e with | .emitError _ => true | _ => false)

/-- Number of finished-signal emissions in a trace. -/
def finishedCount (evs : List Ev) : Nat :=
  evs.countP (fun e => match e with | .emitFinished _ => true | _ => false)

/-- The progress values emitted along a trace, in order. -/
def progressValues (evs : List Ev) : List Nat :=
  evs.filterMap (fun e => match e with | .emitProgress p => some p | _ => none)

/-- Effect of one event on the proxy environment state. -/
def proxyStep (st : Bool) (e : Ev) : Bool :=
  match e with
  | Ev.setProxy => true
  | Ev.clearProxy => false
  | _ => st

/-- Whether the proxy environment variables are set after the events `evs`
have run (initially unset). -/
def proxySetAfter (evs : List Ev) : Bool :=
  evs.foldl proxyStep false

/-- Proxy environment state when the worker is torn down by
`SubtitleEditor.cancelTranslation` (`src/SRCaddChinese.py` lines 343–359)
after `k` of its events: `terminate()` stops the thread abruptly, so the
`finally` block does not run (the trace is truncated), and the cancel
handler itself only resets flags and re-enables buttons — it never touches
the environment variables. -/
def proxyAfterCancel (probe : ProbeResult) (resp : String → Nat → Option String)
    (texts : List String) (k : Nat) : Bool :=
  proxySetAfter ((runThread probe resp texts).take k)

/-- `(i, x)` pairs of a list, indexing from `i0`. -/
def idxFrom (i0 : Nat) : List α → List (Nat × α)
  | [] => []
  | a :: as => (i0, a) :: idxFrom (i0 + 1) as

/-! ## The `SrtFile` parser, modelled from the spec

The class `SrtFile` (`src/SRCaddChinese.py` lines 32–50) declares `parse`
and `save` in its docstring but has no implementation; the definitions below
follow `spec.md` §4.1. -/

/-- A blank line: nothing remains after stripping. -/
def isBlankLine (s : String) : Bool := (pyStrip s).data.isEmpty

/-- Modelled from the spec: the text-line collection step of
`SubtitleDocument.parse` — `SrtFile.parse` is declared but not implemented
in the source.  Per §4.1 the caption text is "the following line(s) up to
the next blank line or next digit-only line"; returns the text lines and
the remaining lines (starting with the stopping line). -/
def takeText : List String → List String × List String
  | [] => ([], [])
  | l :: ls =>
    if isBlankLine l || isDigitLine l then ([], l :: ls)
    else
      let p := takeText ls
      (l :: p.1, p.2)

theorem takeText_snd_length : ∀ ls : List String,
    (takeText ls).2.length ≤ ls.length := by
  intro ls
  induction ls with
  | nil => simp [takeText]
  | cons l ls ih =>
    simp only [takeText]
    split
    · simp
    · simpa using Nat.le_succ_of_le ih

/-- Modelled from the spec: `SubtitleDocument.parse` on the split line list —
`SrtFile.parse` is declared but not implemented in the source.  Per §4.1 the
parser "walks lines looking for a line that is purely digits (a caption
index).  On finding one, consumes the next line as the time range and the
following line(s) up to the next blank line or next digit-only line as the
caption text"; lines outside any recognized group are dropped silently. -/
def parseLines : List String → List CaptionBlock
  | [] => []
  | l :: ls =>
    if isDigitLine l then
      match ls with
      | [] => []
      | tc :: rest =>
        ⟨pyToNat (pyStrip l), tc, (takeText rest).1⟩ ::
          parseLines (takeText rest).2
    else parseLines ls
termination_by ls => ls.length
decreasing_by
  all_goals simp only [List.length_cons]
  · rename_i rest3
    have := takeText_snd_length rest3
    omega
  · omega

/-! ## Behaviour of the walks on well-formed documents -/

theorem serializeLines_cons (b : CaptionBlock) (bs : List CaptionBlock) :
    serializeLines (b :: bs) =
      natToString b.index :: b.timeRange :: (b.text ++ [""]) ++ serializeLines bs := by
  simp [serializeLines]

theorem extractGo_cons_nondigit {x : String} (rest : List String)
    (hx : isDigitLine x = false) : extractGo (x :: rest) = extractGo rest := by
  rw [extractGo.eq_def]
  simp [hx]

theorem mergeGo_cons_nondigit {x : String} (rest ts : List String)
    (hx : isDigitLine x = false) :
    mergeGo (x :: rest) ts = (x :: ·) <$> mergeGo rest ts := by
  rw [mergeGo.eq_def]
  simp [hx]

theorem chineseGo_cons_nondigit {x : String} (rest : List String) (c : Nat)
    (hx : isDigitLine x = false) : chineseGo (x :: rest) c = chineseGo rest c := by
  rw [chineseGo.eq_def]
  simp [hx]

theorem extractGo_nondigit_prefix : ∀ (xs ys : List String),
    (∀ x ∈ xs, isDigitLine x = false) →
    extractGo (xs ++ ys) = extractGo ys := by
  intro xs
  induction xs with
  | nil => intro ys _; rfl
  | cons x xs ih =>
    intro ys h
    have hx : isDigitLine x = false := h x (List.mem_cons_self ..)
    rw [List.cons_append, extractGo_cons_nondigit _ hx]
    exact ih ys (fun c hc => h c (List.mem_cons_of_mem _ hc))

theorem mergeGo_nondigit_prefix : ∀ (xs ys ts : List String),
    (∀ x ∈ xs, isDigitLine x = false) →
    mergeGo (xs ++ ys) ts = (xs ++ ·) <$> mergeGo ys ts := by
  intro xs
  induction xs with
  | nil =>
    intro ys ts _
    cases h : mergeGo ys ts <;> simp [h]
  | cons x xs ih =>
    intro ys ts h
    have hx : isDigitLine x = false := h x (List.mem_cons_self ..)
    rw [List.cons_append, mergeGo_cons_nondigit _ _ hx]
    rw [ih ys ts (fun c hc => h c (List.mem_cons_of_mem _ hc))]
    cases h2 : mergeGo ys ts <;> simp [h2]

theorem chineseGo_nondigit_prefix : ∀ (xs ys : List String) (c : Nat),
    (∀ x ∈ xs, isDigitLine x = false) →
    chineseGo (xs ++ ys) c = chineseGo ys c := by
  intro xs
  induction xs with
  | nil => intro ys c _; rfl
  | cons x xs ih =>
    intro ys c h
    have hx : isDigitLine x = false := h x (List.mem_cons_self ..)
    rw [List.cons_append, chineseGo_cons_nondigit _ _ hx]
    exact ih ys c (fun z hz => h z (List.mem_cons_of_mem _ hz))

theorem tailsep_nondigit {tail : List String}
    (h : ∀ l ∈ tail, isDigitLine l = false) :
    ∀ x ∈ tail ++ [""], isDigitLine x = false := by
  intro x hx
  rcases List.mem_append.mp hx with hx | hx
  · exact h x hx
  · simp only [List.mem_singleton] at hx
    subst hx
    exact isDigitLine_empty

/-- Skipping a block's trailing text lines and the blank separator. -/
theorem extractGo_tailsep (tail ys : List String)
    (h : ∀ l ∈ tail, isDigitLine l = false) :
    extractGo (tail ++ "" :: ys) = extractGo ys := by
  have := extractGo_nondigit_prefix (tail ++ [""]) ys (tailsep_nondigit h)
  simpa [List.append_assoc] using this

theorem mergeGo_tailsep (tail ys ts : List String)
    (h : ∀ l ∈ tail, isDigitLine l = false) :
    mergeGo (tail ++ "" :: ys) ts = (fun r => tail ++ "" :: r) <$> mergeGo ys ts := by
  have := mergeGo_nondigit_prefix (tail ++ [""]) ys ts (tailsep_nondigit h)
  simpa [List.append_assoc] using this

theorem chineseGo_tailsep (tail ys : List String) (c : Nat)
    (h : ∀ l ∈ tail, isDigitLine l = false) :
    chineseGo (tail ++ "" :: ys) c = chineseGo ys c := by
  have := chineseGo_nondigit_prefix (tail ++ [""]) ys c (tailsep_nondigit h)
  simpa [List.append_assoc] using this

theorem wfBlock_text_eq {b : CaptionBlock} (h : wfBlock b) :
    b.text = b.text.headI :: b.text.tail := by
  obtain ⟨hne, -⟩ := h
  cases hx : b.text with
  | nil => exact absurd hx hne
  | cons a l => simp [hx]

/-- On a serialized well-formed document, the `'translate'` walk returns, in
order, the stripped first text line of every block. -/
theorem extractGo_serializeLines : ∀ (bs : List CaptionBlock),
    (∀ b ∈ bs, wfBlock b) →
    extractGo (serializeLines bs) = bs.map (fun b => pyStrip b.text.headI) := by
  intro bs
  induction bs with
  | nil => intro _; rfl
  | cons b bs ih =>
    intro hwf
    have hb : wfBlock b := hwf b (List.mem_cons_self ..)
    rw [serializeLines_cons, wfBlock_text_eq hb]
    simp only [List.cons_append, List.append_assoc, List.singleton_append,
      List.nil_append]
    rw [extractGo, isDigitLine_natToString]
    simp only [if_true]
    rw [extractGo_tailsep _ _ hb.2,
      ih (fun z hz => hwf z (List.mem_cons_of_mem _ hz))]
    simp

/-- On a serialized well-formed document with exactly one translation per
block, the merge walk succeeds and produces, per block: index line, time
range, first text line, the corresponding translation, the remaining text
lines and the blank separator. -/
theorem mergeGo_serializeLines : ∀ (bs : List CaptionBlock) (ts : List String),
    (∀ b ∈ bs, wfBlock b) → ts.length = bs.length →
    mergeGo (serializeLines bs) ts =
      some ((bs.zip ts).flatMap fun p => mergedSeg p.1 p.2) := by
  intro bs
  induction bs with
  | nil =>
    intro ts _ hlen
    have : ts = [] := List.length_eq_zero.mp (by simpa using hlen)
    subst this
    rfl
  | cons b bs ih =>
    intro ts hwf hlen
    cases ts with
    | nil => simp at hlen
    | cons t ts' =>
      have hb : wfBlock b := hwf b (List.mem_cons_self ..)
      rw [serializeLines_cons, wfBlock_text_eq hb]
      simp only [List.cons_append, List.append_assoc, List.singleton_append,
      List.nil_append]
      rw [mergeGo, isDigitLine_natToString]
      simp only [if_true]
      rw [mergeGo_tailsep _ _ _ hb.2,
        ih ts' (fun z hz => hwf z (List.mem_cons_of_mem _ hz)) (by simpa using hlen)]
      simp [mergedSeg]

/-- On the merged bilingual lines of a well-formed document, the
`'chinese_only'` walk emits, for every block — also those whose translation
is empty, since an empty line is not digit-only — a fresh sequential number,
the original time range and the translation line, and nothing else (in
particular no blank separators). -/
theorem chineseGo_merged : ∀ (bs : List CaptionBlock) (ts : List String) (c : Nat),
    (∀ b ∈ bs, wfBlock b) → ts.length = bs.length →
    (∀ t ∈ ts, isDigitLine t = false) →
    chineseGo ((bs.zip ts).flatMap fun p => mergedSeg p.1 p.2) c =
      (idxFrom c (bs.zip ts)).flatMap
        (fun q => [natToString q.1, q.2.1.timeRange, q.2.2]) := by
  intro bs
  induction bs with
  | nil =>
    intro ts c _ hlen _
    have : ts = [] := List.length_eq_zero.mp (by simpa using hlen)
    subst this
    rfl
  | cons b bs ih =>
    intro ts c hwf hlen hts
    cases ts with
    | nil => simp at hlen
    | cons t ts' =>
      have hb : wfBlock b := hwf b (List.mem_cons_self ..)
      have ht : isDigitLine t = false := hts t (List.mem_cons_self ..)
      simp only [List.zip_cons_cons, List.flatMap_cons]
      rw [show mergedSeg b t =
        natToString b.index :: b.timeRange :: b.text.headI :: t ::
          (b.text.tail ++ [""]) from rfl]
      simp only [List.cons_append, List.append_assoc, List.singleton_append,
        List.nil_append]
      rw [chineseGo, isDigitLine_natToString]
      simp only [if_true]
      rw [ht]
      simp only [Bool.false_eq_true, if_false]
      rw [chineseGo_tailsep _ _ _ hb.2,
        ih ts' (c + 1) (fun z hz => hwf z (List.mem_cons_of_mem _ hz))
          (by simpa using hlen) (fun z hz => hts z (List.mem_cons_of_mem _ hz))]
      simp [idxFrom]

/-! ## Round trip of the spec-modelled parser -/

theorem isBlankLine_empty : isBlankLine "" = true := by decide

theorem parseLines_cons_nondigit {x : String} (ls : List String)
    (hx : isDigitLine x = false) : parseLines (x :: ls) = parseLines ls := by
  rw [parseLines.eq_def]
  simp [hx]

theorem takeText_clean_append : ∀ (xs : List String) (stop : String) (rest : List String),
    (∀ x ∈ xs, (isBlankLine x || isDigitLine x) = false) →
    (isBlankLine stop || isDigitLine stop) = true →
    takeText (xs ++ stop :: rest) = (xs, stop :: rest) := by
  intro xs
  induction xs with
  | nil =>
    intro stop rest _ hstop
    simp [takeText, hstop]
  | cons x xs ih =>
    intro stop rest h hstop
    have hx : (isBlankLine x || isDigitLine x) = false := h x (List.mem_cons_self ..)
    rw [List.cons_append, takeText, hx]
    simp only [Bool.false_eq_true, if_false]
    rw [ih stop rest (fun z hz => h z (List.mem_cons_of_mem _ hz)) hstop]

theorem takeText_fst_good : ∀ ls : List String,
    ∀ l ∈ (takeText ls).1, (isBlankLine l || isDigitLine l) = false := by
  intro ls
  induction ls with
  | nil => simp [takeText]
  | cons x xs ih =>
    intro l hl
    rw [takeText] at hl
    by_cases hx : (isBlankLine x || isDigitLine x) = true
    · simp [hx] at hl
    · rw [Bool.not_eq_true] at hx
      simp only [hx, Bool.false_eq_true, if_false] at hl
      rcases List.mem_cons.mp hl with rfl | hl
      · exact hx
      · exact ih l hl

/-- Every block the spec-modelled parser produces has text lines that are
neither blank nor digit-only (they were collected by `takeText`). -/
theorem parseLines_good : ∀ (fuel : Nat) (ls : List String), ls.length ≤ fuel →
    ∀ b ∈ parseLines ls, ∀ l ∈ b.text, (isBlankLine l || isDigitLine l) = false := by
  intro fuel
  induction fuel with
  | zero =>
    intro ls hlen b hb
    have : ls = [] := by
      cases ls with
      | nil => rfl
      | cons x xs => simp at hlen
    subst this
    simp [parseLines] at hb
  | succ f ih =>
    intro ls hlen b hb l hl
    cases ls with
    | nil => simp [parseLines] at hb
    | cons x xs =>
      by_cases hx : isDigitLine x = true
      · cases xs with
        | nil =>
          rw [parseLines.eq_def] at hb
          simp [hx] at hb
        | cons tc rest =>
          rw [parseLines.eq_def] at hb
          simp only [hx, if_true] at hb
          rcases List.mem_cons.mp hb with rfl | hb
          · exact takeText_fst_good rest l hl
          · have hr : (takeText rest).2.length ≤ f := by
              have h1 := takeText_snd_length rest
              simp only [List.length_cons] at hlen
              omega
            exact ih (takeText rest).2 hr b hb l hl
      · rw [Bool.not_eq_true] at hx
        rw [parseLines_cons_nondigit xs hx] at hb
        have : xs.length ≤ f := by
          simp only [List.length_cons] at hlen
          omega
        exact ih xs this b hb l hl

/-- Serializing a block list whose text lines are clean and re-parsing it
recovers the blocks exactly. -/
theorem parseLines_serializeLines : ∀ bs : List CaptionBlock,
    (∀ b ∈ bs, ∀ l ∈ b.text, (isBlankLine l || isDigitLine l) = false) →
    parseLines (serializeLines bs) = bs := by
  intro bs
  induction bs with
  | nil =>
    intro _
    rw [show serializeLines [] = [] from rfl, parseLines.eq_def]
  | cons b bs ih =>
    intro hgood
    rw [serializeLines_cons]
    simp only [List.cons_append, List.append_assoc, List.singleton_append,
      List.nil_append]
    rw [parseLines.eq_def]
    simp only [isDigitLine_natToString, if_true]
    rw [takeText_clean_append b.text "" (serializeLines bs)
      (hgood b (List.mem_cons_self ..)) (by simp [isBlankLine_empty])]
    rw [pyStrip_natToString, pyToNat_natToString]
    rw [parseLines_cons_nondigit _ isDigitLine_empty]
    rw [ih (fun z hz => hgood z (List.mem_cons_of_mem _ hz))]

/-! ## Behaviour of the retry loop and the batch loop -/

theorem translateAttempts_callCount : ∀ (n k : Nat) (resp : Nat → Option String)
    (text : String), callCount (translateAttempts resp text k n).2 ≤ n := by
  intro n
  induction n with
  | zero => intro k resp text; simp [translateAttempts, callCount]
  | succ m ih =>
    intro k resp text
    rw [translateAttempts]
    cases h : resp k with
    | some r => simp [callCount]
    | none =>
      have := ih (k + 1) resp text
      unfold callCount at this ⊢
      simp only [List.countP_cons]
      simp
      omega

theorem translateAttempts_progressValues : ∀ (n k : Nat) (resp : Nat → Option String)
    (text : String), progressValues (translateAttempts resp text k n).2 = [] := by
  intro n
  induction n with
  | zero => intro k resp text; simp [translateAttempts, progressValues]
  | succ m ih =>
    intro k resp text
    rw [translateAttempts]
    cases h : resp k with
    | some r => simp [progressValues]
    | none =>
      simp only [progressValues, List.filterMap_cons]
      exact ih (k + 1) resp text

/-- The per-item trace segment of the batch loop: the provider calls and
retry sleeps of the item (none when it is blank), the progress signal, and
the fixed 0.5-unit sleep. -/
def itemSeg (resp : String → Nat → Option String) (total : Nat)
    (p : Nat × String) : List Ev :=
  (if pyTruthy p.2 then (translate_text (resp p.2) p.2).2 else []) ++
    [Ev.emitProgress (progressValue p.1 total), Ev.sleep 5]

/-- When every non-blank text eventually translates (no item exhausts its
retries), the batch loop returns the results in input order — the empty
string for blank texts, the translation otherwise — and its trace is the
concatenation, in input order, of the per-item segments. -/
theorem runLoop_ok (resp : String → Nat → Option String) (total : Nat) :
    ∀ (ts : List String) (i : Nat),
    (∀ t ∈ ts, pyTruthy t = true → (translate_text (resp t) t).1 ≠ .err) →
    runLoop resp total ts i =
      (some (ts.map fun t =>
         if pyTruthy t then okText (translate_text (resp t) t).1 else ""),
       (idxFrom i ts).flatMap (itemSeg resp total)) := by
  intro ts
  induction ts with
  | nil => intro i _; rfl
  | cons t ts ih =>
    intro i h
    by_cases htr : pyTruthy t = true
    · have hne : (translate_text (resp t) t).1 ≠ .err :=
        h t (List.mem_cons_self ..) htr
      obtain ⟨r, evs, heq⟩ : ∃ r evs, translate_text (resp t) t = (.ok r, evs) := by
        rcases hres : translate_text (resp t) t with ⟨o, evs⟩
        cases o with
        | ok s => exact ⟨s, evs, rfl⟩
        | err => rw [hres] at hne; simp at hne
      rw [runLoop]
      simp only [htr, if_true, heq]
      rw [ih (i + 1) (fun z hz hb => h z (List.mem_cons_of_mem _ hz) hb)]
      simp [Prod.mk.injEq, htr, heq, okText, idxFrom, itemSeg]
    · rw [runLoop]
      rw [Bool.not_eq_true] at htr
      simp only [htr, Bool.false_eq_true, if_false]
      rw [ih (i + 1) (fun z hz hb => h z (List.mem_cons_of_mem _ hz) hb)]
      simp [Prod.mk.injEq, htr, idxFrom, itemSeg]

theorem progressValues_append (evs evs2 : List Ev) :
    progressValues (evs ++ evs2) = progressValues evs ++ progressValues evs2 := by
  simp [progressValues]

theorem progressValues_itemSeg (resp : String → Nat → Option String)
    (total : Nat) (p : Nat × String) :
    progressValues (itemSeg resp total p) = [progressValue p.1 total] := by
  unfold itemSeg
  rw [progressValues_append]
  by_cases htr : pyTruthy p.2 = true
  · simp only [htr, if_true]
    rw [show (translate_text (resp p.2) p.2).2 =
      (translateAttempts (resp p.2) p.2 0 3).2 from rfl]
    rw [translateAttempts_progressValues]
    simp [progressValues]
  · rw [Bool.not_eq_true] at htr
    simp [htr, progressValues]

theorem idxFrom_map_fst (f : Nat → Nat) : ∀ (ts : List String) (i : Nat),
    ((idxFrom i ts).map fun p => f p.1) =
      (List.range ts.length).map (fun k => f (i + k)) := by
  intro ts
  induction ts with
  | nil => intro i; rfl
  | cons t ts ih =>
    intro i
    simp only [idxFrom, List.map_cons, List.length_cons, List.range_succ_eq_map,
      List.map_map]
    rw [ih (i + 1)]
    congr 1
    apply List.map_congr_left
    intro a ha
    show f (i + 1 + a) = f (i + (a + 1))
    congr 1
    omega

theorem progressValues_flatMap_itemSeg (resp : String → Nat → Option String)
    (total : Nat) (ts : List String) (i : Nat) :
    progressValues ((idxFrom i ts).flatMap (itemSeg resp total)) =
      (List.range ts.length).map (fun k => progressValue (i + k) total) := by
  rw [← idxFrom_map_fst (fun k => progressValue k total) ts i]
  induction ts generalizing i with
  | nil => rfl
  | cons t ts ih =>
    simp only [idxFrom, List.flatMap_cons, List.map_cons]
    rw [progressValues_append, progressValues_itemSeg, ih (i + 1)]
    simp [idxFrom_map_fst]

/-! ## Totality of the merge walk -/

/-- Every digit-only (stripped) line is followed by at least one further
line; equivalently, no digit-only line is the last line of the list. -/
def noTrailingDigit (lines : List String) : Prop :=
  ∀ p, p < lines.length →
    isDigitLine (lines.getD p "") = true → p + 1 < lines.length

instance (lines : List String) : Decidable (noTrailingDigit lines) := by
  unfold noTrailingDigit
  infer_instance

theorem noTrailingDigit_tail {x : String} {l : List String}
    (h : noTrailingDigit (x :: l)) : noTrailingDigit l := by
  intro p hp hd
  have h2 := h (p + 1) (by simp only [List.length_cons]; omega)
    (by rwa [List.getD_cons_succ])
  simp only [List.length_cons] at h2
  omega

theorem noTrailingDigit_head_digit {x : String} {l : List String}
    (h : noTrailingDigit (x :: l)) (hx : isDigitLine x = true) : l ≠ [] := by
  have h0 := h 0 (by simp) (by rwa [List.getD_cons_zero])
  intro hl
  subst hl
  simp at h0

/-- Whenever no digit-only line is the last line, every index the merge walk
uses is in bounds and the merge succeeds. -/
theorem mergeGo_isSome (lines transl : List String) :
    noTrailingDigit lines → (mergeGo lines transl).isSome = true := by
  induction lines, transl using mergeGo.induct with
  | case1 x =>
    intro _
    simp [mergeGo]
  | case2 cur transl hdig =>
    intro h
    exact absurd rfl (noTrailingDigit_head_digit h hdig)
  | case3 cur transl hdig txt =>
    intro _
    simp [mergeGo, hdig]
  | case4 cur hdig txt txt1 rest3 t ts ih =>
    intro h
    have h3 : noTrailingDigit rest3 :=
      noTrailingDigit_tail (noTrailingDigit_tail (noTrailingDigit_tail h))
    simp only [mergeGo, hdig, if_true]
    simpa using ih h3
  | case5 cur hdig txt txt1 rest3 ih =>
    intro h
    have h3 : noTrailingDigit rest3 :=
      noTrailingDigit_tail (noTrailingDigit_tail (noTrailingDigit_tail h))
    simp only [mergeGo, hdig, if_true]
    simpa using ih h3
  | case6 cur rest transl hnd ih =>
    intro h
    rw [mergeGo_cons_nondigit _ _ (by simpa using hnd)]
    simpa using ih (noTrailingDigit_tail h)

/-! ## Claims -/

/-- C1, counterexample.  The claim says an empty translation leaves the
block completely unchanged; the code appends it anyway: merging the
single-block document `1/tc/Hello` with the empty translation inserts an
empty line, so the block is changed. -/
theorem C1_empty_translation_changes_block :
    onTranslationFinished_merge (serializeLines [⟨1, "tc", ["Hello"]⟩]) [""] =
      some ["1", "tc", "Hello", "", ""] ∧
    some ["1", "tc", "Hello", "", ""] ≠
      some (serializeLines [⟨1, "tc", ["Hello"]⟩]) := by
  constructor
  · rfl
  · decide

/-- C1, amended.  For every well-formed document and aligned translation
list, the merge appends `translations[i]` as an additional line immediately
after block `i`'s *first* text line, unconditionally — also when
`translations[i]` is empty, in which case an empty extra line is added
rather than the block being left unchanged. -/
theorem C1_merge_appends_translation_unconditionally
    (bs : List CaptionBlock) (ts : List String)
    (hwf : ∀ b ∈ bs, wfBlock b) (hlen : ts.length = bs.length) :
    onTranslationFinished_merge (serializeLines bs) ts =
      some ((bs.zip ts).flatMap fun p => mergedSeg p.1 p.2) :=
  mergeGo_serializeLines bs ts hwf hlen

/-- C1, witness. -/
theorem C1_witness :
    onTranslationFinished_merge (serializeLines [⟨1, "tc", ["Hello"]⟩]) [""] =
      some (([(⟨1, "tc", ["Hello"]⟩ : CaptionBlock)].zip [""]).flatMap
        fun p => mergedSeg p.1 p.2) :=
  C1_merge_appends_translation_unconditionally
    [⟨1, "tc", ["Hello"]⟩] [""] (by decide) (by decide)

/-- C2, confirmed.  `translate_text` makes at most 3 provider calls, sleeps
one time unit after each failed attempt (hence between consecutive
attempts), returns the provider's result on the first successful attempt —
in particular a provider failing exactly twice then succeeding yields the
result after exactly 3 calls — and raises the translation error after all
3 attempts fail. -/
theorem C2_retry_contract (resp : Nat → Option String) (text : String) :
    callCount (translate_text resp text).2 ≤ 3 ∧
    (∀ r, resp 0 = some r →
      translate_text resp text = (.ok r, [Ev.callProvider text])) ∧
    (∀ r, resp 0 = none → resp 1 = none → resp 2 = some r →
      translate_text resp text =
        (.ok r, [Ev.callProvider text, Ev.sleep 10, Ev.callProvider text,
          Ev.sleep 10, Ev.callProvider text])) ∧
    (resp 0 = none → resp 1 = none → resp 2 = none →
      translate_text resp text =
        (.err, [Ev.callProvider text, Ev.sleep 10, Ev.callProvider text,
          Ev.sleep 10, Ev.callProvider text, Ev.sleep 10])) := by
  refine ⟨translateAttempts_callCount 3 0 resp text, ?_, ?_, ?_⟩
  · intro r h0
    simp [translate_text, translateAttempts, h0]
  · intro r h0 h1 h2
    simp [translate_text, translateAttempts, h0, h1, h2]
  · intro h0 h1 h2
    simp [translate_text, translateAttempts, h0, h1, h2]

/-- C2, witness: a provider failing exactly twice then succeeding. -/
theorem C2_witness :
    translate_text (fun k => if k < 2 then none else some "好") "hi" =
      (.ok "好", [Ev.callProvider "hi", Ev.sleep 10, Ev.callProvider "hi",
        Ev.sleep 10, Ev.callProvider "hi"]) :=
  (C2_retry_contract (fun k => if k < 2 then none else some "好") "hi").2.2.1
    "好" (by decide) (by decide) (by decide)

/-- C3, counterexample.  The claim says a failed reachability probe is
surfaced as a single error event; when the probe merely reports
unreachability without raising (HTTP status ≠ 200, `test_proxy` returns
`False`), `run` returns silently: the trace is just set/clear of the proxy
variables, with zero error events instead of one. -/
theorem C3_silent_probe_failure :
    runThread .notOk (fun _ _ => none) ["hi"] = [Ev.setProxy, Ev.clearProxy] ∧
    errCount (runThread .notOk (fun _ _ => none) ["hi"]) = 0 := by
  constructor <;> rfl

/-- C3, amended.  Whenever the reachability probe fails, the batch aborts
before any provider call, no items are translated and no finished signal is
emitted; the failure is surfaced as a single error event only when the
probe *raises* — when it reports unreachability without raising, the batch
ends silently with no error event at all. -/
theorem C3_probe_failure_behaviour (resp : String → Nat → Option String)
    (texts : List String) (msg : String) :
    runThread (.raises msg) resp texts =
      [Ev.setProxy, Ev.emitError ("代理连接测试失败: " ++ msg), Ev.clearProxy] ∧
    callCount (runThread (.raises msg) resp texts) = 0 ∧
    errCount (runThread (.raises msg) resp texts) = 1 ∧
    finishedCount (runThread (.raises msg) resp texts) = 0 ∧
    runThread .notOk resp texts = [Ev.setProxy, Ev.clearProxy] ∧
    callCount (runThread .notOk resp texts) = 0 ∧
    errCount (runThread .notOk resp texts) = 0 ∧
    finishedCount (runThread .notOk resp texts) = 0 := by
  refine ⟨rfl, rfl, rfl, rfl, rfl, rfl, rfl, rfl⟩

/-- C4, counterexample.  The spec's own example: blocks with original
indices `[5, 9, 12]` and translations `["甲", "", "丙"]` should yield two
blocks renumbered `[1, 2]`; the code instead keeps the empty-translation
block (an empty line is not digit-only), producing three renumbered blocks
`1/甲`, `2/(empty)`, `3/丙`. -/
theorem C4_empty_translation_not_dropped :
    (onTranslationFinished_merge
        (serializeLines [⟨5, "t5", ["A"]⟩, ⟨9, "t9", ["B"]⟩, ⟨12, "t12", ["C"]⟩])
        ["甲", "", "丙"]).map process_subtitle_lines_chinese_only =
      some ["1", "t5", "甲", "2", "t9", "", "3", "t12", "丙"] ∧
    some ["1", "t5", "甲", "2", "t9", "", "3", "t12", "丙"] ≠
      some ["1", "t5", "甲", "2", "t12", "丙"] := by
  constructor
  · rfl
  · decide

/-- C4, amended.  On the merged bilingual lines of a well-formed document,
the translated-only filter emits one renumbered entry — sequential from 1 —
for *every* block whose translation line is not digit-only, keeping the
original time range and the translation text; blocks with an *empty*
translation are kept as an entry with an empty text line rather than being
dropped, and no blank separator lines are emitted. -/
theorem C4_filter_keeps_empty_translations
    (bs : List CaptionBlock) (ts : List String)
    (hwf : ∀ b ∈ bs, wfBlock b) (hlen : ts.length = bs.length)
    (hts : ∀ t ∈ ts, isDigitLine t = false) :
    (onTranslationFinished_merge (serializeLines bs) ts).map
        process_subtitle_lines_chinese_only =
      some ((idxFrom 1 (bs.zip ts)).flatMap
        fun q => [natToString q.1, q.2.1.timeRange, q.2.2]) := by
  rw [onTranslationFinished_merge, mergeGo_serializeLines bs ts hwf hlen]
  rw [Option.map_some']
  rw [show process_subtitle_lines_chinese_only
      ((bs.zip ts).flatMap fun p => mergedSeg p.1 p.2) =
    chineseGo ((bs.zip ts).flatMap fun p => mergedSeg p.1 p.2) 1 from rfl]
  rw [chineseGo_merged bs ts 1 hwf hlen hts]

/-- C4, witness. -/
theorem C4_witness :
    (onTranslationFinished_merge
        (serializeLines [⟨5, "t5", ["A"]⟩, ⟨9, "t9", ["B"]⟩, ⟨12, "t12", ["C"]⟩])
        ["甲", "", "丙"]).map process_subtitle_lines_chinese_only =
      some ((idxFrom 1
          ([⟨5, "t5", ["A"]⟩, ⟨9, "t9", ["B"]⟩, (⟨12, "t12", ["C"]⟩ : CaptionBlock)].zip
            ["甲", "", "丙"])).flatMap
        fun q => [natToString q.1, q.2.1.timeRange, q.2.2]) :=
  C4_filter_keeps_empty_translations
    [⟨5, "t5", ["A"]⟩, ⟨9, "t9", ["B"]⟩, ⟨12, "t12", ["C"]⟩] ["甲", "", "丙"]
    (by decide) (by decide) (by decide)

/-- C5, counterexample.  The claim says the emitted progress value is
`round((i + 1) / total * 100)`; the code truncates with `int(...)`.  For a
3-item batch the second item emits 66, while rounding `2/3 * 100` gives
67. -/
theorem C5_progress_is_not_rounded :
    progressValues (runThread .ok (fun _ _ => some "x") ["a", "b", "c"]) =
      [33, 66, 100] ∧
    round ((((1 : ℚ) + 1) / 3) * 100) = 67 ∧ (66 : ℤ) ≠ 67 := by
  refine ⟨rfl, by norm_num [round_eq], by decide⟩

/-- C5, amended.  For every input list whose non-blank items all translate
within the retry budget, the batch emits one progress value per item, in
order, equal to the *truncation* `int((i + 1) / total * 100)` — modelled by
exact truncated division `(i + 1) * 100 / total` — rather than the rounded
value. -/
theorem C5_progress_per_item (resp : String → Nat → Option String)
    (texts : List String)
    (h : ∀ t ∈ texts, pyTruthy t = true →
      (translate_text (resp t) t).1 ≠ TransOutcome.err) :
    progressValues (runThread .ok resp texts) =
      (List.range texts.length).map (fun i => progressValue i texts.length) := by
  unfold runThread
  rw [runLoop_ok resp texts.length texts 0 h]
  simp only [progressValues, List.filterMap_cons, List.filterMap_append]
  have hflat := progressValues_flatMap_itemSeg resp texts.length texts 0
  unfold progressValues at hflat
  rw [hflat]
  simp

/-- C5, witness. -/
theorem C5_witness :
    progressValues (runThread .ok (fun _ _ => some "x") ["d", "e", "f"]) =
      (List.range (["d", "e", "f"] : List String).length).map
        (fun i => progressValue i (["d", "e", "f"] : List String).length) :=
  C5_progress_per_item (fun _ _ => some "x") ["d", "e", "f"] (by decide)

theorem foldl_proxyStep_clear (l : List Ev) (init : Bool) :
    (l ++ [Ev.clearProxy]).foldl proxyStep init = false := by
  rw [List.foldl_append]
  rfl

/-- C6, counterexample.  The claim says the proxy variables are unset after
the batch terminates by *any* path, cancellation included; cancelling right
after the probe has set them (the worker is terminated abruptly, so its
`finally` never runs, and `cancelTranslation` does not touch the
environment) leaves them set. -/
theorem C6_cancellation_leaves_proxy_set :
    proxyAfterCancel .ok (fun _ _ => some "x") ["a"] 1 = true := rfl

/-- C6, amended.  The proxy environment variables are set as the very first
step of the worker and are cleared on every *completed* exit path — success,
silent probe failure, probe error and translation error alike (the `finally`
block) — but not on the cancellation path, where the thread is terminated
abruptly and the cancel handler does not clear them. -/
theorem C6_proxy_scoped_on_completed_paths (probe : ProbeResult)
    (resp : String → Nat → Option String) (texts : List String) :
    (runThread probe resp texts).head? = some Ev.setProxy ∧
    proxySetAfter (runThread probe resp texts) = false := by
  constructor
  · rfl
  · unfold proxySetAfter runThread
    rw [List.foldl_cons]
    exact foldl_proxyStep_clear _ _

/-- C7, confirmed.  On a batch whose non-blank items all translate within
the retry budget: items are processed in input order; a blank item
contributes the empty string with zero provider calls; a non-blank item
contributes the result of the single-text translate; and after every item —
blank or not — the progress signal is emitted and the worker sleeps a fixed
0.5 time units (`itemSeg` ends with `Ev.sleep 5`). -/
theorem C7_batch_order_blank_and_delay (resp : String → Nat → Option String)
    (texts : List String)
    (h : ∀ t ∈ texts, pyTruthy t = true →
      (translate_text (resp t) t).1 ≠ TransOutcome.err) :
    runThread .ok resp texts =
      Ev.setProxy ::
        ((Ev.emitStarted ::
          ((idxFrom 0 texts).flatMap (itemSeg resp texts.length) ++
            [Ev.emitFinished (texts.map fun t =>
              if pyTruthy t then okText (translate_text (resp t) t).1 else "")])) ++
          [Ev.clearProxy]) ∧
    (∀ p : Nat × String, pyTruthy p.2 = false →
      callCount (itemSeg resp texts.length p) = 0) := by
  constructor
  · unfold runThread
    rw [runLoop_ok resp texts.length texts 0 h]
  · intro p hp
    simp [itemSeg, hp, callCount]

/-- C7, witness. -/
theorem C7_witness :
    runThread .ok (fun _ _ => some "x") ["a", " "] =
      Ev.setProxy ::
        ((Ev.emitStarted ::
          ((idxFrom 0 ["a", " "]).flatMap
              (itemSeg (fun _ _ => some "x") (["a", " "] : List String).length) ++
            [Ev.emitFinished (["a", " "].map fun t =>
              if pyTruthy t then
                okText (translate_text ((fun _ _ => some "x") t) t).1
              else "")])) ++
          [Ev.clearProxy]) :=
  (C7_batch_order_blank_and_delay (fun _ _ => some "x") ["a", " "] (by decide)).1

/-- C8, counterexample.  The claim says each extracted string equals the
block's first text line; the code strips it, so a padded text line
`" Hello "` is extracted as `"Hello"`. -/
theorem C8_extraction_strips_whitespace :
    process_subtitle_lines_translate (serializeLines [⟨1, "tc", [" Hello "]⟩]) =
      ["Hello"] ∧ (["Hello"] : List String) ≠ [" Hello "] := by
  constructor
  · rfl
  · decide

/-- C8, amended.  For every well-formed document with `N` blocks the
extraction returns exactly `N` strings, one per block in order, each equal
to the block's first text line *with surrounding whitespace stripped*; and
the merge, given exactly `N` translations, consumes all of them aligned 1:1
by position. -/
theorem C8_extraction_and_alignment (bs : List CaptionBlock) (ts : List String)
    (hwf : ∀ b ∈ bs, wfBlock b) (hlen : ts.length = bs.length) :
    (process_subtitle_lines_translate (serializeLines bs)).length = bs.length ∧
    process_subtitle_lines_translate (serializeLines bs) =
      bs.map (fun b => pyStrip b.text.headI) ∧
    onTranslationFinished_merge (serializeLines bs) ts =
      some ((bs.zip ts).flatMap fun p => mergedSeg p.1 p.2) := by
  refine ⟨?_, extractGo_serializeLines bs hwf, mergeGo_serializeLines bs ts hwf hlen⟩
  rw [show process_subtitle_lines_translate (serializeLines bs) =
    extractGo (serializeLines bs) from rfl, extractGo_serializeLines bs hwf]
  simp

/-- C8, witness. -/
theorem C8_witness :
    (process_subtitle_lines_translate
        (serializeLines [⟨1, "tc", ["Hello"]⟩])).length =
      ([⟨1, "tc", ["Hello"]⟩] : List CaptionBlock).length ∧
    process_subtitle_lines_translate (serializeLines [⟨1, "tc", ["Hello"]⟩]) =
      ([⟨1, "tc", ["Hello"]⟩] : List CaptionBlock).map
        (fun b => pyStrip b.text.headI) ∧
    onTranslationFinished_merge (serializeLines [⟨1, "tc", ["Hello"]⟩]) ["你好"] =
      some ((([⟨1, "tc", ["Hello"]⟩] : List CaptionBlock).zip ["你好"]).flatMap
        fun p => mergedSeg p.1 p.2) :=
  C8_extraction_and_alignment [⟨1, "tc", ["Hello"]⟩] ["你好"] (by decide) (by decide)

/-- C9, confirmed against the spec-modelled parser (`SrtFile` is declared
but not implemented in the source): re-parsing the serialization of a parse
yields exactly the same caption blocks — index, time range and text
preserved — for *every* line list, in particular for every well-formed SRT
input. -/
theorem C9_parse_serialize_roundtrip (ls : List String) :
    parseLines (serializeLines (parseLines ls)) = parseLines ls :=
  parseLines_serializeLines (parseLines ls)
    (parseLines_good ls.length ls (Nat.le_refl _))

/-- C10, confirmed.  The merge walk accesses `lines[i-1]` without a bounds
check: whenever every digit-only (stripped) line is followed by at least one
further line the walk stays in bounds and the merge succeeds; and there is
an input — content whose final line is digit-only after stripping, such as
`["1"]` — on which the access is out of range, so the merge is not total. -/
theorem C10_merge_walk_bounds :
    (∀ lines transl : List String, noTrailingDigit lines →
      (onTranslationFinished_merge lines transl).isSome = true) ∧
    onTranslationFinished_merge ["1"] [] = none ∧
    isDigitLine "1" = true := by
  refine ⟨fun l t h => mergeGo_isSome l t h, rfl, rfl⟩

/-- C10, witness. -/
theorem C10_witness :
    noTrailingDigit ["1", "tc"] ∧
    (onTranslationFinished_merge ["1", "tc"] ["x"]).isSome = true :=
  ⟨by decide, C10_merge_walk_bounds.1 ["1", "tc"] ["x"] (by decide)⟩

end SrtTool
